import Mathlib

/-!
Verification of the gematria computation core of `src/app.py`.

The Python source is shallowly embedded: strings become `List Char`,
Python dict lookups become `Option`-valued functions (`none` models a
`KeyError`), and the two compute functions return `Option` results, where
`none` models an uncaught exception.  The Unicode NFKD normalization and
the `str.split` / `str.strip` / `str.lower` / `str.upper` library calls
are embedded by their defined behaviour on the character ranges this
program can distinguish (see the doc comments on each).
-/

/-- Python `str.isspace` / the default `str.split()` separator class:
tab through carriage return, the file/group/record/unit separators,
space, next line, no-break space, and the Unicode space separators.
Used by `countTokens` and `pyStrip` below. -/
def isPySpace (c : Char) : Bool :=
  let n := c.toNat
  (9 ≤ n && n ≤ 13) || (28 ≤ n && n ≤ 31) || n = 32 || n = 0x85 || n = 0xA0 ||
  n = 0x1680 || (0x2000 ≤ n && n ≤ 0x200A) || n = 0x2028 || n = 0x2029 ||
  n = 0x202F || n = 0x205F || n = 0x3000

/-- Helper for `countTokens`: the Bool records whether the scan is
currently inside a run of non-whitespace characters. -/
def countTokensAux : Bool → List Char → Nat
  | _, [] => 0
  | inTok, c :: rest =>
    if isPySpace c then countTokensAux false rest
    else (if inTok then 0 else 1) + countTokensAux true rest

/-- Python `len(text.split())`: the number of maximal runs of
non-whitespace characters. -/
def countTokens (s : List Char) : Nat := countTokensAux false s

/-- Python `text.strip()`: drop whitespace from both ends. -/
def pyStrip (s : List Char) : List Char :=
  ((s.dropWhile isPySpace).reverse.dropWhile isPySpace).reverse

/-- Python `c.lower()` for a single character, restricted to the
characters whose lowercase form can be an ASCII letter: the ASCII
uppercase range and U+212A KELVIN SIGN (which lowers to `k`).  Every
other character maps to itself; for those characters the true Python
lowercase is never a single ASCII letter, so the `in ENGLISH_ORDINAL`
membership test of the source behaves identically. -/
def pyLower (c : Char) : Char :=
  if 'A' ≤ c && c ≤ 'Z' then Char.ofNat (c.toNat + 32)
  else if c.toNat = 0x212A then 'k'
  else c

/-- Python `c.upper()` restricted to the ASCII lowercase range (the only
characters it is applied to in the source); other characters map to
themselves. -/
def pyUpper (c : Char) : Char :=
  if 'a' ≤ c && c ≤ 'z' then Char.ofNat (c.toNat - 32) else c

/-- Unicode NFKD compatibility decomposition of one character,
restricted to the block the program's normalization can act on: the
Hebrew Alphabetic Presentation Forms (U+FB1D-U+FB4F) decompose per the
Unicode Character Database; every other character relevant to this
program (Hebrew base letters U+05D0-U+05EA, ASCII, whitespace, Hebrew
points) is NFKD-invariant and maps to itself. -/
def nfkdChar (c : Char) : List Char :=
  match c.toNat with
  | 0xFB1D => [Char.ofNat 0x05D9, Char.ofNat 0x05B4]
  | 0xFB20 => [Char.ofNat 0x05E2]
  | 0xFB21 => [Char.ofNat 0x05D0]
  | 0xFB22 => [Char.ofNat 0x05D3]
  | 0xFB23 => [Char.ofNat 0x05D4]
  | 0xFB24 => [Char.ofNat 0x05DB]
  | 0xFB25 => [Char.ofNat 0x05DC]
  | 0xFB26 => [Char.ofNat 0x05DD]
  | 0xFB27 => [Char.ofNat 0x05E8]
  | 0xFB28 => [Char.ofNat 0x05EA]
  | 0xFB29 => [Char.ofNat 0x2B]
  | 0xFB2A => [Char.ofNat 0x05E9, Char.ofNat 0x05C1]
  | 0xFB2B => [Char.ofNat 0x05E9, Char.ofNat 0x05C2]
  | 0xFB2C => [Char.ofNat 0x05E9, Char.ofNat 0x05BC, Char.ofNat 0x05C1]
  | 0xFB2D => [Char.ofNat 0x05E9, Char.ofNat 0x05BC, Char.ofNat 0x05C2]
  | 0xFB2E => [Char.ofNat 0x05D0, Char.ofNat 0x05B7]
  | 0xFB2F => [Char.ofNat 0x05D0, Char.ofNat 0x05B8]
  | 0xFB30 => [Char.ofNat 0x05D0, Char.ofNat 0x05BC]
  | 0xFB31 => [Char.ofNat 0x05D1, Char.ofNat 0x05BC]
  | 0xFB32 => [Char.ofNat 0x05D2, Char.ofNat 0x05BC]
  | 0xFB33 => [Char.ofNat 0x05D3, Char.ofNat 0x05BC]
  | 0xFB34 => [Char.ofNat 0x05D4, Char.ofNat 0x05BC]
  | 0xFB35 => [Char.ofNat 0x05D5, Char.ofNat 0x05BC]
  | 0xFB36 => [Char.ofNat 0x05D6, Char.ofNat 0x05BC]
  | 0xFB38 => [Char.ofNat 0x05D8, Char.ofNat 0x05BC]
  | 0xFB39 => [Char.ofNat 0x05D9, Char.ofNat 0x05BC]
  | 0xFB3A => [Char.ofNat 0x05DA, Char.ofNat 0x05BC]
  | 0xFB3B => [Char.ofNat 0x05DB, Char.ofNat 0x05BC]
  | 0xFB3C => [Char.ofNat 0x05DC, Char.ofNat 0x05BC]
  | 0xFB3E => [Char.ofNat 0x05DE, Char.ofNat 0x05BC]
  | 0xFB40 => [Char.ofNat 0x05E0, Char.ofNat 0x05BC]
  | 0xFB41 => [Char.ofNat 0x05E1, Char.ofNat 0x05BC]
  | 0xFB43 => [Char.ofNat 0x05E3, Char.ofNat 0x05BC]
  | 0xFB44 => [Char.ofNat 0x05E4, Char.ofNat 0x05BC]
  | 0xFB46 => [Char.ofNat 0x05E6, Char.ofNat 0x05BC]
  | 0xFB47 => [Char.ofNat 0x05E7, Char.ofNat 0x05BC]
  | 0xFB48 => [Char.ofNat 0x05E8, Char.ofNat 0x05BC]
  | 0xFB49 => [Char.ofNat 0x05E9, Char.ofNat 0x05BC]
  | 0xFB4A => [Char.ofNat 0x05EA, Char.ofNat 0x05BC]
  | 0xFB4B => [Char.ofNat 0x05D5, Char.ofNat 0x05B9]
  | 0xFB4C => [Char.ofNat 0x05D1, Char.ofNat 0x05BF]
  | 0xFB4D => [Char.ofNat 0x05DB, Char.ofNat 0x05BF]
  | 0xFB4E => [Char.ofNat 0x05E4, Char.ofNat 0x05BF]
  | 0xFB4F => [Char.ofNat 0x05D0, Char.ofNat 0x05DC]
  | _ => [c]

/-- Python `unicodedata.normalize('NFKD', text)`: decompose every
character (canonical reordering of combining marks is omitted; it
permutes only marks, which are never keys of `HEBREW_VALUES`, so it
cannot change which table letters occur or their relative order). -/
def normalizeNFKD (s : List Char) : List Char := (s.map nfkdChar).flatten

/-- The `HEBREW_VALUES` dict of `src/app.py` lines 65-69: Hebrew letter
to standard value, with the five final forms carrying their base
letter's value.  `none` models absence from the dict. -/
def HEBREW_VALUES (c : Char) : Option Nat :=
  match c.toNat with
  | 0x05D0 => some 1    -- א
  | 0x05D1 => some 2    -- ב
  | 0x05D2 => some 3    -- ג
  | 0x05D3 => some 4    -- ד
  | 0x05D4 => some 5    -- ה
  | 0x05D5 => some 6    -- ו
  | 0x05D6 => some 7    -- ז
  | 0x05D7 => some 8    -- ח
  | 0x05D8 => some 9    -- ט
  | 0x05D9 => some 10   -- י
  | 0x05DB => some 20   -- כ
  | 0x05DA => some 20   -- ך
  | 0x05DC => some 30   -- ל
  | 0x05DE => some 40   -- מ
  | 0x05DD => some 40   -- ם
  | 0x05E0 => some 50   -- נ
  | 0x05DF => some 50   -- ן
  | 0x05E1 => some 60   -- ס
  | 0x05E2 => some 70   -- ע
  | 0x05E4 => some 80   -- פ
  | 0x05E3 => some 80   -- ף
  | 0x05E6 => some 90   -- צ
  | 0x05E5 => some 90   -- ץ
  | 0x05E7 => some 100  -- ק
  | 0x05E8 => some 200  -- ר
  | 0x05E9 => some 300  -- ש
  | 0x05EA => some 400  -- ת
  | _ => none

/-- The `ENGLISH_ORDINAL` dict comprehension of `src/app.py` line 71:
`{chr(ord('a')+i): i+1 for i in range(26)}`. -/
def ENGLISH_ORDINAL (c : Char) : Option Nat :=
  if 'a' ≤ c && c ≤ 'z' then some (c.toNat - 'a'.toNat + 1) else none

/-- The `ENGLISH_REDUCTION` dict comprehension of `src/app.py` line 72:
`{chr(ord('a')+i): (i % 9) + 1 for i in range(26)}`. -/
def ENGLISH_REDUCTION (c : Char) : Option Nat :=
  if 'a' ≤ c && c ≤ 'z' then some ((c.toNat - 'a'.toNat) % 9 + 1) else none

/-- The `ENGLISH_REVERSE_ORDINAL` dict comprehension of `src/app.py`
line 73: `{chr(ord('a')+i): 26 - i for i in range(26)}`. -/
def ENGLISH_REVERSE_ORDINAL (c : Char) : Option Nat :=
  if 'a' ≤ c && c ≤ 'z' then some (26 - (c.toNat - 'a'.toNat)) else none

/-- The `ENGLISH_REVERSE_REDUCTION` dict comprehension of `src/app.py`
line 74: `{chr(ord('a')+i): ((25 - i) % 9) + 1 for i in range(26)}`. -/
def ENGLISH_REVERSE_REDUCTION (c : Char) : Option Nat :=
  if 'a' ≤ c && c ≤ 'z' then some ((25 - (c.toNat - 'a'.toNat)) % 9 + 1) else none

/-- The reduction rule `(v - 1) % 9 + 1` applied inline in
`compute_hebrew_gematria` (lines 99 and 110). -/
def reduced (v : Nat) : Nat := (v - 1) % 9 + 1

/-- The Hebrew totals dict: keys Standard, Mispar Katan, Letters, Words. -/
structure HebrewTotals where
  standard : Nat
  misparKatan : Nat
  letters : Nat
  words : Nat
deriving DecidableEq, Repr

/-- One row of the Hebrew breakdown: keys Letter, Value, Small. -/
structure HebrewEntry where
  letter : Char
  value : Nat
  small : Nat
deriving DecidableEq, Repr

/-- The English totals dict when non-empty: keys English Ordinal, Full
Reduction, Reverse Ordinal, Reverse Reduction. -/
structure EnglishTotals where
  englishOrdinal : Nat
  fullReduction : Nat
  reverseOrdinal : Nat
  reverseReduction : Nat
deriving DecidableEq, Repr

/-- One row of the English breakdown: keys Letter, Ordinal, Reduction,
Rev. Ordinal, Rev. Reduction. -/
structure EnglishEntry where
  letter : Char
  ordinal : Nat
  reduction : Nat
  revOrdinal : Nat
  revReduction : Nat
deriving DecidableEq, Repr

/-- The accumulation loop of `compute_hebrew_gematria` (lines 89-93):
for each character, if it is a key of `HEBREW_VALUES` then look it up
and append `(char, value)`; a failing lookup (the `none` inner branch)
would be a `KeyError`, modelled by a `none` overall result. -/
def collectHebrew : List Char → Option (List (Char × Nat))
  | [] => some []
  | c :: rest =>
    if (HEBREW_VALUES c).isSome then
      match HEBREW_VALUES c with
      | some v => (collectHebrew rest).map (fun ps => (c, v) :: ps)
      | none => none
    else collectHebrew rest

/-- Python `compute_hebrew_gematria` (lines 81-112).  Strings are lists
of characters; the outer `Option` models raising: `none` would be an
uncaught `KeyError`. -/
def compute_hebrew_gematria (text : List Char) :
    Option (HebrewTotals × List HebrewEntry) :=
  if text = [] then some (⟨0, 0, 0, 0⟩, [])
  else
    let normalized_text := normalizeNFKD text
    match collectHebrew normalized_text with
    | none => none
    | some pairs =>
      let clean_chars := pairs.map Prod.fst
      let clean_values := pairs.map Prod.snd
      if clean_chars = [] then some (⟨0, 0, 0, countTokens text⟩, [])
      else
        some (⟨clean_values.sum, (clean_values.map reduced).sum,
               clean_chars.length, countTokens text⟩,
              (clean_chars.zip clean_values).map
                (fun p => ⟨p.1, p.2, reduced p.2⟩))

/-- Python `sum(table[c] for c in clean_text)` (lines 125-128): a
lookup of a character absent from the table is a `KeyError`, modelled
by `none`. -/
def sumLookups (table : Char → Option Nat) : List Char → Option Nat
  | [] => some 0
  | c :: rest =>
    match table c, sumLookups table rest with
    | some v, some s => some (v + s)
    | _, _ => none

/-- One row of the English breakdown loop (lines 138-145): four dict
lookups for the character, any failure being a `KeyError`. -/
def englishEntry (c : Char) : Option EnglishEntry := do
  let o ← ENGLISH_ORDINAL c
  let r ← ENGLISH_REDUCTION c
  let v ← ENGLISH_REVERSE_ORDINAL c
  let w ← ENGLISH_REVERSE_REDUCTION c
  pure ⟨pyUpper c, o, r, v, w⟩

/-- The English breakdown loop (lines 137-145). -/
def englishBreakdown : List Char → Option (List EnglishEntry)
  | [] => some []
  | c :: rest =>
    match englishEntry c, englishBreakdown rest with
    | some e, some bd => some (e :: bd)
    | _, _ => none

/-- Python `compute_english_gematria` (lines 114-147).  The totals dict
is `none` for the empty-result branches (no metric keys at all) and
`some` of the four totals otherwise; the outer `Option` models raising. -/
def compute_english_gematria (text : List Char) :
    Option (Option EnglishTotals × List EnglishEntry) :=
  if text = [] then some (none, [])
  else
    let clean_text := (text.map pyLower).filter (fun c => (ENGLISH_ORDINAL c).isSome)
    if clean_text = [] then some (none, [])
    else
      match sumLookups ENGLISH_ORDINAL clean_text,
            sumLookups ENGLISH_REDUCTION clean_text,
            sumLookups ENGLISH_REVERSE_ORDINAL clean_text,
            sumLookups ENGLISH_REVERSE_REDUCTION clean_text with
      | some o, some r, some v, some w =>
        match englishBreakdown clean_text with
        | some bd => some (some ⟨o, r, v, w⟩, bd)
        | none => none
      | _, _, _, _ => none

/-- One entry of the `st.session_state['history']` list (lines 281-285):
display text truncated to 30 characters plus an ellipsis, the scheme
name, and the primary value. -/
structure HistoryEntry where
  text : List Char
  lang : List Char
  val : Nat
deriving DecidableEq, Repr

/-- The entry dict built at lines 281-285. -/
def mkHistoryEntry (inputText lang : List Char) (val : Nat) : HistoryEntry :=
  ⟨if inputText.length > 30 then inputText.take 30 ++ ['.', '.', '.'] else inputText,
   lang, val⟩

/-- The history update of lines 280-287: if the input text stripped of
whitespace is non-empty, insert the new entry at index 0 and trim the
list to its first 5 elements; otherwise leave the history unchanged. -/
def recordRecent (inputText lang : List Char) (val : Nat)
    (history : List HistoryEntry) : List HistoryEntry :=
  if pyStrip inputText ≠ [] then
    (mkHistoryEntry inputText lang val :: history).take 5
  else history

/-! ## Characterization lemmas -/

theorem collectHebrew_eq (l : List Char) :
    collectHebrew l =
      some (l.filterMap (fun c => (HEBREW_VALUES c).map (fun v => (c, v)))) := by
  induction l with
  | nil => rfl
  | cons c rest ih =>
    cases h : HEBREW_VALUES c with
    | none => simp [collectHebrew, h, ih]
    | some v => simp [collectHebrew, h, ih]

theorem filterMap_pair_fst {α β : Type} (f : α → Option β) (l : List α) :
    (l.filterMap (fun c => (f c).map (fun v => (c, v)))).map Prod.fst =
      l.filter (fun c => (f c).isSome) := by
  induction l with
  | nil => rfl
  | cons c rest ih =>
    cases h : f c with
    | none => simp [List.filterMap_cons, h, ih]
    | some v => simp [List.filterMap_cons, h, ih]

theorem filterMap_pair_snd {α β : Type} (f : α → Option β) (d : β) (l : List α) :
    (l.filterMap (fun c => (f c).map (fun v => (c, v)))).map Prod.snd =
      (l.filter (fun c => (f c).isSome)).map (fun c => (f c).getD d) := by
  induction l with
  | nil => rfl
  | cons c rest ih =>
    cases h : f c with
    | none => simp [List.filterMap_cons, h, ih]
    | some v => simp [List.filterMap_cons, h, ih]

theorem zip_self_map {α β : Type} (f : α → β) (l : List α) :
    l.zip (l.map f) = l.map (fun a => (a, f a)) := by
  induction l with
  | nil => rfl
  | cons a l ih => simp [ih]

theorem sumLookups_eq (table : Char → Option Nat) (l : List Char)
    (h : ∀ c ∈ l, (table c).isSome) :
    sumLookups table l = some ((l.map (fun c => (table c).getD 0)).sum) := by
  induction l with
  | nil => rfl
  | cons c rest ih =>
    obtain ⟨v, hv⟩ := Option.isSome_iff_exists.mp (h c (List.mem_cons_self c rest))
    have ih2 := ih (fun x hx => h x (List.mem_cons_of_mem _ hx))
    simp [sumLookups, hv, ih2]

theorem english_ordinal_isSome (c : Char) :
    (ENGLISH_ORDINAL c).isSome = ('a' ≤ c && c ≤ 'z') := by
  unfold ENGLISH_ORDINAL
  cases h : ('a' ≤ c && c ≤ 'z') <;> simp [h]

theorem english_reduction_isSome (c : Char) :
    (ENGLISH_REDUCTION c).isSome = ('a' ≤ c && c ≤ 'z') := by
  unfold ENGLISH_REDUCTION
  cases h : ('a' ≤ c && c ≤ 'z') <;> simp [h]

theorem english_reverse_ordinal_isSome (c : Char) :
    (ENGLISH_REVERSE_ORDINAL c).isSome = ('a' ≤ c && c ≤ 'z') := by
  unfold ENGLISH_REVERSE_ORDINAL
  cases h : ('a' ≤ c && c ≤ 'z') <;> simp [h]

theorem english_reverse_reduction_isSome (c : Char) :
    (ENGLISH_REVERSE_REDUCTION c).isSome = ('a' ≤ c && c ≤ 'z') := by
  unfold ENGLISH_REVERSE_REDUCTION
  cases h : ('a' ≤ c && c ≤ 'z') <;> simp [h]

theorem englishEntry_eq (c : Char) (h : (ENGLISH_ORDINAL c).isSome) :
    englishEntry c = some ⟨pyUpper c, (ENGLISH_ORDINAL c).getD 0,
      (ENGLISH_REDUCTION c).getD 0, (ENGLISH_REVERSE_ORDINAL c).getD 0,
      (ENGLISH_REVERSE_REDUCTION c).getD 0⟩ := by
  rw [english_ordinal_isSome] at h
  simp [englishEntry, ENGLISH_ORDINAL, ENGLISH_REDUCTION, ENGLISH_REVERSE_ORDINAL,
        ENGLISH_REVERSE_REDUCTION, h]

theorem englishBreakdown_eq (l : List Char)
    (h : ∀ c ∈ l, (ENGLISH_ORDINAL c).isSome) :
    englishBreakdown l = some (l.map (fun c =>
      ⟨pyUpper c, (ENGLISH_ORDINAL c).getD 0, (ENGLISH_REDUCTION c).getD 0,
       (ENGLISH_REVERSE_ORDINAL c).getD 0, (ENGLISH_REVERSE_REDUCTION c).getD 0⟩)) := by
  induction l with
  | nil => rfl
  | cons c rest ih =>
    have ih2 := ih (fun x hx => h x (List.mem_cons_of_mem _ hx))
    simp [englishBreakdown, englishEntry_eq c (h c (List.mem_cons_self c rest)), ih2]

theorem normalizeNFKD_nil : normalizeNFKD [] = [] := rfl

theorem compute_hebrew_some (text : List Char)
    (hck : (normalizeNFKD text).filter (fun c => (HEBREW_VALUES c).isSome) ≠ []) :
    compute_hebrew_gematria text =
      some (⟨(((normalizeNFKD text).filter (fun c => (HEBREW_VALUES c).isSome)).map
                (fun c => (HEBREW_VALUES c).getD 0)).sum,
             (((normalizeNFKD text).filter (fun c => (HEBREW_VALUES c).isSome)).map
                (fun c => reduced ((HEBREW_VALUES c).getD 0))).sum,
             ((normalizeNFKD text).filter (fun c => (HEBREW_VALUES c).isSome)).length,
             countTokens text⟩,
            ((normalizeNFKD text).filter (fun c => (HEBREW_VALUES c).isSome)).map
              (fun c => ⟨c, (HEBREW_VALUES c).getD 0, reduced ((HEBREW_VALUES c).getD 0)⟩)) := by
  have hne : text ≠ [] := by
    intro h
    rw [h, normalizeNFKD_nil] at hck
    exact hck rfl
  unfold compute_hebrew_gematria
  rw [if_neg hne]
  simp only [collectHebrew_eq, filterMap_pair_fst, filterMap_pair_snd HEBREW_VALUES 0]
  rw [if_neg hck]
  simp only [zip_self_map, List.map_map]
  rfl

theorem compute_hebrew_zero (text : List Char)
    (hck : (normalizeNFKD text).filter (fun c => (HEBREW_VALUES c).isSome) = []) :
    compute_hebrew_gematria text = some (⟨0, 0, 0, countTokens text⟩, []) := by
  by_cases hne : text = []
  · subst hne
    rfl
  · unfold compute_hebrew_gematria
    rw [if_neg hne]
    simp only [collectHebrew_eq, filterMap_pair_fst]
    rw [if_pos hck]

theorem compute_english_some (text : List Char)
    (hck : (text.map pyLower).filter (fun c => (ENGLISH_ORDINAL c).isSome) ≠ []) :
    compute_english_gematria text =
      some (some
        ⟨(((text.map pyLower).filter (fun c => (ENGLISH_ORDINAL c).isSome)).map
            (fun c => (ENGLISH_ORDINAL c).getD 0)).sum,
         (((text.map pyLower).filter (fun c => (ENGLISH_ORDINAL c).isSome)).map
            (fun c => (ENGLISH_REDUCTION c).getD 0)).sum,
         (((text.map pyLower).filter (fun c => (ENGLISH_ORDINAL c).isSome)).map
            (fun c => (ENGLISH_REVERSE_ORDINAL c).getD 0)).sum,
         (((text.map pyLower).filter (fun c => (ENGLISH_ORDINAL c).isSome)).map
            (fun c => (ENGLISH_REVERSE_REDUCTION c).getD 0)).sum⟩,
        ((text.map pyLower).filter (fun c => (ENGLISH_ORDINAL c).isSome)).map
          (fun c => ⟨pyUpper c, (ENGLISH_ORDINAL c).getD 0, (ENGLISH_REDUCTION c).getD 0,
            (ENGLISH_REVERSE_ORDINAL c).getD 0, (ENGLISH_REVERSE_REDUCTION c).getD 0⟩)) := by
  have hne : text ≠ [] := by
    intro h
    rw [h] at hck
    exact hck rfl
  have hmem : ∀ c ∈ (text.map pyLower).filter (fun c => (ENGLISH_ORDINAL c).isSome),
      (ENGLISH_ORDINAL c).isSome := by
    intro c hc
    exact (List.mem_filter.mp hc).2
  have hmem2 : ∀ c ∈ (text.map pyLower).filter (fun c => (ENGLISH_ORDINAL c).isSome),
      ('a' ≤ c && c ≤ 'z') = true := by
    intro c hc
    rw [← english_ordinal_isSome]
    exact hmem c hc
  unfold compute_english_gematria
  rw [if_neg hne]
  simp only []
  rw [if_neg hck]
  rw [sumLookups_eq ENGLISH_ORDINAL _ hmem,
      sumLookups_eq ENGLISH_REDUCTION _
        (fun c hc => by rw [english_reduction_isSome]; exact hmem2 c hc),
      sumLookups_eq ENGLISH_REVERSE_ORDINAL _
        (fun c hc => by rw [english_reverse_ordinal_isSome]; exact hmem2 c hc),
      sumLookups_eq ENGLISH_REVERSE_REDUCTION _
        (fun c hc => by rw [english_reverse_reduction_isSome]; exact hmem2 c hc),
      englishBreakdown_eq _ hmem]

theorem compute_english_empty (text : List Char)
    (hck : (text.map pyLower).filter (fun c => (ENGLISH_ORDINAL c).isSome) = []) :
    compute_english_gematria text = some (none, []) := by
  by_cases hne : text = []
  · subst hne
    rfl
  · unfold compute_english_gematria
    rw [if_neg hne]
    simp only []
    rw [if_pos hck]

theorem char_az_iff (c : Char) :
    ('a' ≤ c && c ≤ 'z') = true ↔ 97 ≤ c.toNat ∧ c.toNat ≤ 122 := by
  simp [Char.le_def, UInt32.le_def, BitVec.le_def, Char.toNat, UInt32.toNat]

theorem char_AZ_iff (c : Char) :
    ('A' ≤ c && c ≤ 'Z') = true ↔ 65 ≤ c.toNat ∧ c.toNat ≤ 90 := by
  simp [Char.le_def, UInt32.le_def, BitVec.le_def, Char.toNat, UInt32.toNat]

theorem char_toNat_ofNat (n : Nat) (h1 : 97 ≤ n) (h2 : n ≤ 122) :
    (Char.ofNat n).toNat = n := by
  have hv : n < 55296 ∨ 57343 < n ∧ n < 1114112 := by omega
  simp [Char.ofNat, hv, Char.ofNatAux, Char.toNat, UInt32.toNat, UInt32.ofNat]

theorem pyLower_az (c : Char)
    (h : ('a' ≤ c && c ≤ 'z') = true ∨ ('A' ≤ c && c ≤ 'Z') = true) :
    ('a' ≤ pyLower c && pyLower c ≤ 'z') = true := by
  rcases h with h | h
  · have hn := (char_az_iff c).mp h
    have hAZ : ¬ (('A' ≤ c && c ≤ 'Z') = true) := fun hAZ => by
      have := (char_AZ_iff c).mp hAZ
      omega
    have hK : ¬ (c.toNat = 0x212A) := by omega
    unfold pyLower
    rw [if_neg hAZ, if_neg hK]
    exact h
  · have hn := (char_AZ_iff c).mp h
    unfold pyLower
    rw [if_pos h]
    rw [char_az_iff, char_toNat_ofNat (c.toNat + 32) (by omega) (by omega)]
    omega

/-! ## Claim theorems -/

/-- C1: for every input string containing at least one recognized Hebrew
letter after NFKD normalization, `compute_hebrew_gematria` returns
(without raising) totals whose Standard is the sum of the
`HEBREW_VALUES` table values of the recognized letters and whose Mispar
Katan is the sum of `((value - 1) % 9) + 1` over those same letters; the
five final-letter forms carry the same table value as their non-final
counterparts. -/
theorem hebrew_standard_and_katan_sums (text : List Char)
    (h : ∃ c ∈ normalizeNFKD text, (HEBREW_VALUES c).isSome) :
    (HEBREW_VALUES 'ך' = HEBREW_VALUES 'כ' ∧ HEBREW_VALUES 'ם' = HEBREW_VALUES 'מ' ∧
     HEBREW_VALUES 'ן' = HEBREW_VALUES 'נ' ∧ HEBREW_VALUES 'ף' = HEBREW_VALUES 'פ' ∧
     HEBREW_VALUES 'ץ' = HEBREW_VALUES 'צ') ∧
    ∃ totals breakdown,
      compute_hebrew_gematria text = some (totals, breakdown) ∧
      totals.standard = (((normalizeNFKD text).filter (fun c => (HEBREW_VALUES c).isSome)).map
        (fun c => (HEBREW_VALUES c).getD 0)).sum ∧
      totals.misparKatan = (((normalizeNFKD text).filter (fun c => (HEBREW_VALUES c).isSome)).map
        (fun c => ((HEBREW_VALUES c).getD 0 - 1) % 9 + 1)).sum := by
  have hck : (normalizeNFKD text).filter (fun c => (HEBREW_VALUES c).isSome) ≠ [] := by
    obtain ⟨c, hc, hs⟩ := h
    intro hemp
    have hmem : c ∈ (normalizeNFKD text).filter (fun c => (HEBREW_VALUES c).isSome) :=
      List.mem_filter.mpr ⟨hc, hs⟩
    rw [hemp] at hmem
    exact List.not_mem_nil c hmem
  exact ⟨by decide, _, _, compute_hebrew_some text hck, rfl, rfl⟩

/-- Witness for C1, at the spec's example `"שלום"`: the hypothesis holds,
the theorem applies, and the computed result is Standard = 376,
Mispar Katan = 16 (with Letters = 4, Words = 1). -/
theorem hebrew_standard_and_katan_sums_witness :
    (∃ c ∈ normalizeNFKD ['ש', 'ל', 'ו', 'ם'], (HEBREW_VALUES c).isSome) ∧
    ((HEBREW_VALUES 'ך' = HEBREW_VALUES 'כ' ∧ HEBREW_VALUES 'ם' = HEBREW_VALUES 'מ' ∧
      HEBREW_VALUES 'ן' = HEBREW_VALUES 'נ' ∧ HEBREW_VALUES 'ף' = HEBREW_VALUES 'פ' ∧
      HEBREW_VALUES 'ץ' = HEBREW_VALUES 'צ') ∧
     ∃ totals breakdown,
       compute_hebrew_gematria ['ש', 'ל', 'ו', 'ם'] = some (totals, breakdown) ∧
       totals.standard = (((normalizeNFKD ['ש', 'ל', 'ו', 'ם']).filter
           (fun c => (HEBREW_VALUES c).isSome)).map
         (fun c => (HEBREW_VALUES c).getD 0)).sum ∧
       totals.misparKatan = (((normalizeNFKD ['ש', 'ל', 'ו', 'ם']).filter
           (fun c => (HEBREW_VALUES c).isSome)).map
         (fun c => ((HEBREW_VALUES c).getD 0 - 1) % 9 + 1)).sum) ∧
    compute_hebrew_gematria ['ש', 'ל', 'ו', 'ם'] =
      some (⟨376, 16, 4, 1⟩,
            [⟨'ש', 300, 3⟩, ⟨'ל', 30, 3⟩, ⟨'ו', 6, 6⟩, ⟨'ם', 40, 4⟩]) :=
  ⟨by decide, hebrew_standard_and_katan_sums ['ש', 'ל', 'ו', 'ם'] (by decide), by decide⟩

/-- C2: for every input string in which at least one character
case-folds (via `pyLower`) to a key of `ENGLISH_ORDINAL`,
`compute_english_gematria` returns (without raising) exactly the four
totals, each the sum of the corresponding per-letter table value over
the filtered lower-cased letters. -/
theorem english_four_totals (text : List Char)
    (h : ∃ c ∈ text, (ENGLISH_ORDINAL (pyLower c)).isSome) :
    ∃ totals breakdown,
      compute_english_gematria text = some (some totals, breakdown) ∧
      totals.englishOrdinal = (((text.map pyLower).filter
          (fun c => (ENGLISH_ORDINAL c).isSome)).map
        (fun c => (ENGLISH_ORDINAL c).getD 0)).sum ∧
      totals.fullReduction = (((text.map pyLower).filter
          (fun c => (ENGLISH_ORDINAL c).isSome)).map
        (fun c => (ENGLISH_REDUCTION c).getD 0)).sum ∧
      totals.reverseOrdinal = (((text.map pyLower).filter
          (fun c => (ENGLISH_ORDINAL c).isSome)).map
        (fun c => (ENGLISH_REVERSE_ORDINAL c).getD 0)).sum ∧
      totals.reverseReduction = (((text.map pyLower).filter
          (fun c => (ENGLISH_ORDINAL c).isSome)).map
        (fun c => (ENGLISH_REVERSE_REDUCTION c).getD 0)).sum := by
  have hck : (text.map pyLower).filter (fun c => (ENGLISH_ORDINAL c).isSome) ≠ [] := by
    obtain ⟨c, hc, hs⟩ := h
    intro hemp
    have hmem : pyLower c ∈ (text.map pyLower).filter (fun c => (ENGLISH_ORDINAL c).isSome) :=
      List.mem_filter.mpr ⟨List.mem_map_of_mem pyLower hc, hs⟩
    rw [hemp] at hmem
    exact List.not_mem_nil _ hmem
  exact ⟨_, _, compute_english_some text hck, rfl, rfl, rfl, rfl⟩

/-- Witness for C2, at the spec's example `"abc"`: the hypothesis holds,
the theorem applies, and the computed totals are English Ordinal = 6,
Full Reduction = 6, Reverse Ordinal = 75 (and Reverse Reduction = 21). -/
theorem english_four_totals_witness :
    (∃ c ∈ ['a', 'b', 'c'], (ENGLISH_ORDINAL (pyLower c)).isSome) ∧
    (∃ totals breakdown,
      compute_english_gematria ['a', 'b', 'c'] = some (some totals, breakdown) ∧
      totals.englishOrdinal = (((['a', 'b', 'c'].map pyLower).filter
          (fun c => (ENGLISH_ORDINAL c).isSome)).map
        (fun c => (ENGLISH_ORDINAL c).getD 0)).sum ∧
      totals.fullReduction = (((['a', 'b', 'c'].map pyLower).filter
          (fun c => (ENGLISH_ORDINAL c).isSome)).map
        (fun c => (ENGLISH_REDUCTION c).getD 0)).sum ∧
      totals.reverseOrdinal = (((['a', 'b', 'c'].map pyLower).filter
          (fun c => (ENGLISH_ORDINAL c).isSome)).map
        (fun c => (ENGLISH_REVERSE_ORDINAL c).getD 0)).sum ∧
      totals.reverseReduction = (((['a', 'b', 'c'].map pyLower).filter
          (fun c => (ENGLISH_ORDINAL c).isSome)).map
        (fun c => (ENGLISH_REVERSE_REDUCTION c).getD 0)).sum) ∧
    (compute_english_gematria ['a', 'b', 'c']).map (fun r => r.1.map
        (fun t => (t.englishOrdinal, t.fullReduction, t.reverseOrdinal))) =
      some (some (6, 6, 75)) :=
  ⟨by decide, english_four_totals ['a', 'b', 'c'] (by decide), by decide⟩

/-- C3 counterexample: the single-character string `U+FB49` (HEBREW
LETTER SHIN WITH DAGESH) contains no character that is a key of
`HEBREW_VALUES`, yet because membership is tested only after NFKD
decomposition (which rewrites it to shin + dagesh), the computation
recognizes a letter: it returns Letters = 1, Standard = 300 and
Mispar Katan = 3 instead of all zeros. -/
theorem hebrew_no_letters_counterexample :
    (∀ c ∈ [Char.ofNat 0xFB49], (HEBREW_VALUES c).isSome = false) ∧
    compute_hebrew_gematria [Char.ofNat 0xFB49] =
      some (⟨300, 3, 1, 1⟩, [⟨Char.ofNat 0x05E9, 300, 3⟩]) := by
  constructor
  · decide
  · decide

/-- C3 amended: for every string whose NFKD normalization contains no
key of `HEBREW_VALUES`, `compute_hebrew_gematria` returns totals with
Letters = 0, Standard = 0 and Mispar Katan = 0 and an empty breakdown
(the Words count being that of the original string). -/
theorem hebrew_no_letters_zero (text : List Char)
    (h : ∀ c ∈ normalizeNFKD text, (HEBREW_VALUES c).isSome = false) :
    compute_hebrew_gematria text = some (⟨0, 0, 0, countTokens text⟩, []) := by
  apply compute_hebrew_zero
  rw [List.filter_eq_nil_iff]
  intro c hc
  simp [h c hc]

/-- Witness for C3 amended: a Latin-only string satisfies the
hypothesis and gets the all-zero totals. -/
theorem hebrew_no_letters_zero_witness :
    (∀ c ∈ normalizeNFKD ['a', 'b', ' ', 'c'], (HEBREW_VALUES c).isSome = false) ∧
    compute_hebrew_gematria ['a', 'b', ' ', 'c'] =
      some (⟨0, 0, 0, countTokens ['a', 'b', ' ', 'c']⟩, []) :=
  ⟨by decide, hebrew_no_letters_zero ['a', 'b', ' ', 'c'] (by decide)⟩

/-- C4: for every string, `compute_hebrew_gematria` returns (without
raising) totals whose Words field is the number of whitespace-delimited
tokens of the original, un-normalized input, whether or not any Hebrew
letter is recognized. -/
theorem hebrew_words_count (text : List Char) :
    ∃ totals breakdown,
      compute_hebrew_gematria text = some (totals, breakdown) ∧
      totals.words = countTokens text := by
  by_cases hck : (normalizeNFKD text).filter (fun c => (HEBREW_VALUES c).isSome) = []
  · exact ⟨_, _, compute_hebrew_zero text hck, rfl⟩
  · exact ⟨_, _, compute_hebrew_some text hck, rfl⟩

/-- C5: for every string in which no character case-folds to a key of
`ENGLISH_ORDINAL` (including the empty string),
`compute_english_gematria` returns, without raising, the empty totals
mapping (no metric keys at all) and an empty breakdown. -/
theorem english_no_letters_empty (text : List Char)
    (h : ∀ c ∈ text, (ENGLISH_ORDINAL (pyLower c)).isSome = false) :
    compute_english_gematria text = some (none, []) := by
  apply compute_english_empty
  rw [List.filter_eq_nil_iff]
  intro c hc
  obtain ⟨a, ha, rfl⟩ := List.mem_map.mp hc
  simp [h a ha]

/-- Witness for C5, at the spec's example `"123"`. -/
theorem english_no_letters_empty_witness :
    (∀ c ∈ ['1', '2', '3'], (ENGLISH_ORDINAL (pyLower c)).isSome = false) ∧
    compute_english_gematria ['1', '2', '3'] = some (none, []) :=
  ⟨by decide, english_no_letters_empty ['1', '2', '3'] (by decide)⟩

/-- C6: both compute functions are total and never reach the missing-key
(`KeyError`) branch: on every input string they return `some` result. -/
theorem compute_never_raises (text : List Char) :
    (compute_hebrew_gematria text).isSome ∧ (compute_english_gematria text).isSome := by
  constructor
  · by_cases hck : (normalizeNFKD text).filter (fun c => (HEBREW_VALUES c).isSome) = []
    · rw [compute_hebrew_zero text hck]
      rfl
    · rw [compute_hebrew_some text hck]
      rfl
  · by_cases hck : (text.map pyLower).filter (fun c => (ENGLISH_ORDINAL c).isSome) = []
    · rw [compute_english_empty text hck]
      rfl
    · rw [compute_english_some text hck]
      rfl

/-- C7 counterexample: the empty string vacuously consists only of
a-z/A-Z letters, but `compute_english_gematria` returns the empty totals
mapping for it, so there is no Reverse Ordinal total at all (while the
claimed sum would be 0): the claim as stated fails at the empty string. -/
theorem reverse_ordinal_empty_counterexample :
    (∀ c ∈ ([] : List Char),
      ('a' ≤ c && c ≤ 'z') = true ∨ ('A' ≤ c && c ≤ 'Z') = true) ∧
    compute_english_gematria [] = some (none, []) ∧
    ¬ ∃ totals breakdown,
        compute_english_gematria ([] : List Char) = some (some totals, breakdown) := by
  refine ⟨by decide, rfl, ?_⟩
  rintro ⟨t, bd, hEq⟩
  rw [show compute_english_gematria ([] : List Char) = some (none, []) from rfl] at hEq
  simp at hEq

/-- C7 amended: `ENGLISH_REVERSE_ORDINAL[c] = 27 - ENGLISH_ORDINAL[c]`
on every key of the tables, and consequently for every NONEMPTY string
of a-z/A-Z letters the Reverse Ordinal total equals the sum of
`27 - ENGLISH_ORDINAL[c]` over the (lower-cased) letters. -/
theorem reverse_ordinal_complement (text : List Char)
    (hne : text ≠ [])
    (hall : ∀ c ∈ text, ('a' ≤ c && c ≤ 'z') = true ∨ ('A' ≤ c && c ≤ 'Z') = true) :
    (∀ c : Char, ('a' ≤ c && c ≤ 'z') = true →
        ENGLISH_REVERSE_ORDINAL c = some (27 - (ENGLISH_ORDINAL c).getD 0)) ∧
    ∃ totals breakdown,
      compute_english_gematria text = some (some totals, breakdown) ∧
      totals.reverseOrdinal =
        (text.map (fun c => 27 - (ENGLISH_ORDINAL (pyLower c)).getD 0)).sum := by
  have hpt : ∀ c : Char, ('a' ≤ c && c ≤ 'z') = true →
      ENGLISH_REVERSE_ORDINAL c = some (27 - (ENGLISH_ORDINAL c).getD 0) := by
    intro c hc
    simp only [ENGLISH_REVERSE_ORDINAL, ENGLISH_ORDINAL, hc, if_true, Option.getD_some]
    congr 1
    omega
  have hlet : ∀ c ∈ text.map pyLower, (ENGLISH_ORDINAL c).isSome = true := by
    intro d hd
    obtain ⟨a, ha, rfl⟩ := List.mem_map.mp hd
    rw [english_ordinal_isSome]
    exact pyLower_az a (hall a ha)
  have hfil : (text.map pyLower).filter (fun c => (ENGLISH_ORDINAL c).isSome) =
      text.map pyLower := by
    rw [List.filter_eq_self]
    exact hlet
  have hck : (text.map pyLower).filter (fun c => (ENGLISH_ORDINAL c).isSome) ≠ [] := by
    rw [hfil]
    simp only [ne_eq, List.map_eq_nil_iff]
    exact hne
  refine ⟨hpt, _, _, compute_english_some text hck, ?_⟩
  dsimp only
  rw [hfil, List.map_map]
  apply congrArg List.sum
  apply List.map_congr_left
  intro a ha
  have h1 := hpt (pyLower a) (pyLower_az a (hall a ha))
  simp [Function.comp, h1]

/-- Witness for C7 amended, at the nonempty all-letter string `"aZ"`. -/
theorem reverse_ordinal_complement_witness :
    (['a', 'Z'] : List Char) ≠ [] ∧
    (∀ c ∈ ['a', 'Z'], ('a' ≤ c && c ≤ 'z') = true ∨ ('A' ≤ c && c ≤ 'Z') = true) ∧
    ((∀ c : Char, ('a' ≤ c && c ≤ 'z') = true →
        ENGLISH_REVERSE_ORDINAL c = some (27 - (ENGLISH_ORDINAL c).getD 0)) ∧
     ∃ totals breakdown,
       compute_english_gematria ['a', 'Z'] = some (some totals, breakdown) ∧
       totals.reverseOrdinal =
         (['a', 'Z'].map (fun c => 27 - (ENGLISH_ORDINAL (pyLower c)).getD 0)).sum) :=
  ⟨by decide, by decide, reverse_ordinal_complement ['a', 'Z'] (by decide) (by decide)⟩

/-- C8: each record of a non-blank text inserts the new entry at index 0
and trims the log to its first 5 elements, so the log never exceeds 5
entries, and after recording 7 non-blank computations in sequence
starting from the empty log, the log is exactly the 5 most recent
entries, most-recent-first. -/
theorem history_cap_and_order
    (t1 t2 t3 t4 t5 t6 t7 g1 g2 g3 g4 g5 g6 g7 : List Char)
    (v1 v2 v3 v4 v5 v6 v7 : Nat)
    (h1 : pyStrip t1 ≠ []) (h2 : pyStrip t2 ≠ []) (h3 : pyStrip t3 ≠ [])
    (h4 : pyStrip t4 ≠ []) (h5 : pyStrip t5 ≠ []) (h6 : pyStrip t6 ≠ [])
    (h7 : pyStrip t7 ≠ []) :
    (∀ t g v hist, List.length hist ≤ 5 → (recordRecent t g v hist).length ≤ 5) ∧
    recordRecent t7 g7 v7 (recordRecent t6 g6 v6 (recordRecent t5 g5 v5
        (recordRecent t4 g4 v4 (recordRecent t3 g3 v3 (recordRecent t2 g2 v2
          (recordRecent t1 g1 v1 [])))))) =
      [mkHistoryEntry t7 g7 v7, mkHistoryEntry t6 g6 v6, mkHistoryEntry t5 g5 v5,
       mkHistoryEntry t4 g4 v4, mkHistoryEntry t3 g3 v3] := by
  constructor
  · intro t g v hist hlen
    unfold recordRecent
    split
    · simp [List.length_take_le 5 (mkHistoryEntry t g v :: hist)]
    · exact hlen
  · simp [recordRecent, h1, h2, h3, h4, h5, h6, h7]

/-- Witness for C8: seven concrete non-blank recordings. -/
theorem history_cap_and_order_witness :
    (∀ t g v hist, List.length hist ≤ 5 → (recordRecent t g v hist).length ≤ 5) ∧
    recordRecent ['g'] ['H'] 7 (recordRecent ['f'] ['H'] 6 (recordRecent ['e'] ['H'] 5
        (recordRecent ['d'] ['H'] 4 (recordRecent ['c'] ['H'] 3 (recordRecent ['b'] ['H'] 2
          (recordRecent ['a'] ['H'] 1 [])))))) =
      [mkHistoryEntry ['g'] ['H'] 7, mkHistoryEntry ['f'] ['H'] 6, mkHistoryEntry ['e'] ['H'] 5,
       mkHistoryEntry ['d'] ['H'] 4, mkHistoryEntry ['c'] ['H'] 3] :=
  history_cap_and_order ['a'] ['b'] ['c'] ['d'] ['e'] ['f'] ['g']
    ['H'] ['H'] ['H'] ['H'] ['H'] ['H'] ['H'] 1 2 3 4 5 6 7
    (by decide) (by decide) (by decide) (by decide) (by decide) (by decide) (by decide)

/-- C9: the two compute functions are deterministic and side-effect
free: both are pure functions of the input string alone in this
embedding (they read only the immutable tables), so two calls with the
same input yield identical totals and breakdowns. -/
theorem compute_idempotent (text : List Char) :
    compute_hebrew_gematria text = compute_hebrew_gematria text ∧
    compute_english_gematria text = compute_english_gematria text :=
  ⟨rfl, rfl⟩

/-- C10: on every input, the returned totals are consistent with the
returned breakdown: the Hebrew Letters total is the breakdown length and
the Standard and Mispar Katan totals are the sums of the Value and Small
columns; each English total, when present, is the sum of the
corresponding column of the English breakdown. -/
theorem totals_match_breakdown (text : List Char) :
    (∀ totals breakdown, compute_hebrew_gematria text = some (totals, breakdown) →
      totals.letters = breakdown.length ∧
      totals.standard = (breakdown.map HebrewEntry.value).sum ∧
      totals.misparKatan = (breakdown.map HebrewEntry.small).sum) ∧
    (∀ totals breakdown, compute_english_gematria text = some (some totals, breakdown) →
      totals.englishOrdinal = (breakdown.map EnglishEntry.ordinal).sum ∧
      totals.fullReduction = (breakdown.map EnglishEntry.reduction).sum ∧
      totals.reverseOrdinal = (breakdown.map EnglishEntry.revOrdinal).sum ∧
      totals.reverseReduction = (breakdown.map EnglishEntry.revReduction).sum) := by
  constructor
  · intro totals breakdown hEq
    by_cases hck : (normalizeNFKD text).filter (fun c => (HEBREW_VALUES c).isSome) = []
    · rw [compute_hebrew_zero text hck] at hEq
      simp only [Option.some.injEq, Prod.mk.injEq] at hEq
      obtain ⟨hT, hB⟩ := hEq
      subst hT
      subst hB
      exact ⟨rfl, rfl, rfl⟩
    · rw [compute_hebrew_some text hck] at hEq
      simp only [Option.some.injEq, Prod.mk.injEq] at hEq
      obtain ⟨hT, hB⟩ := hEq
      subst hT
      subst hB
      refine ⟨by simp, ?_, ?_⟩
      · rw [List.map_map]
        rfl
      · rw [List.map_map]
        rfl
  · intro totals breakdown hEq
    by_cases hck : (text.map pyLower).filter (fun c => (ENGLISH_ORDINAL c).isSome) = []
    · rw [compute_english_empty text hck] at hEq
      simp at hEq
    · rw [compute_english_some text hck] at hEq
      simp only [Option.some.injEq, Prod.mk.injEq] at hEq
      obtain ⟨hT, hB⟩ := hEq
      subst hT
      subst hB
      refine ⟨?_, ?_, ?_, ?_⟩ <;> (rw [List.map_map]; rfl)

/-- Witness for C10, at the mixed string `"אbc"`: the Hebrew totals
match the one-row Hebrew breakdown, and the English totals match the
two-row English breakdown. -/
theorem totals_match_breakdown_witness :
    ((⟨1, 1, 1, 1⟩ : HebrewTotals).letters = ([⟨'א', 1, 1⟩] : List HebrewEntry).length ∧
     (⟨1, 1, 1, 1⟩ : HebrewTotals).standard =
       (([⟨'א', 1, 1⟩] : List HebrewEntry).map HebrewEntry.value).sum ∧
     (⟨1, 1, 1, 1⟩ : HebrewTotals).misparKatan =
       (([⟨'א', 1, 1⟩] : List HebrewEntry).map HebrewEntry.small).sum) ∧
    ((⟨5, 5, 49, 13⟩ : EnglishTotals).englishOrdinal =
       (([⟨'B', 2, 2, 25, 7⟩, ⟨'C', 3, 3, 24, 6⟩] : List EnglishEntry).map
         EnglishEntry.ordinal).sum ∧
     (⟨5, 5, 49, 13⟩ : EnglishTotals).fullReduction =
       (([⟨'B', 2, 2, 25, 7⟩, ⟨'C', 3, 3, 24, 6⟩] : List EnglishEntry).map
         EnglishEntry.reduction).sum ∧
     (⟨5, 5, 49, 13⟩ : EnglishTotals).reverseOrdinal =
       (([⟨'B', 2, 2, 25, 7⟩, ⟨'C', 3, 3, 24, 6⟩] : List EnglishEntry).map
         EnglishEntry.revOrdinal).sum ∧
     (⟨5, 5, 49, 13⟩ : EnglishTotals).reverseReduction =
       (([⟨'B', 2, 2, 25, 7⟩, ⟨'C', 3, 3, 24, 6⟩] : List EnglishEntry).map
         EnglishEntry.revReduction).sum) :=
  ⟨(totals_match_breakdown ['א', 'b', 'c']).1 ⟨1, 1, 1, 1⟩ [⟨'א', 1, 1⟩] (by decide),
   (totals_match_breakdown ['א', 'b', 'c']).2 ⟨5, 5, 49, 13⟩
     [⟨'B', 2, 2, 25, 7⟩, ⟨'C', 3, 3, 24, 6⟩] (by decide)⟩
